import Mathlib

/-!
Shallow embedding of the RAG pipeline core of this repository:
`task/embeddings/text_processor.py` (chunking, ingestion and vector search
over a pgvector-backed store), its caller `task/app.py`, and the chunking
utility `task.utils.text.chunk_text` (imported by the processor but not
present in the source tree; it is modelled from the specification).

Vectors are modelled over `ℚ`; the pgvector distance operators are an
explicit parameter (an interpretation of the operator strings `<->` and
`<=>`), since every property proved here holds for any interpretation.
External effects (the embeddings HTTP call, reading the document file) are
passed in as `Except`-valued functions; the store is explicit state
(a `List Row`), with psycopg2 connection blocks committing on success and
rolling back on an exception.
-/

/-- Error values raised by the Python code, together with
`embeddingUnavailable`, which is modelled from the spec: the specification's
error taxonomy (§7) names an `EmbeddingUnavailable` class, but no such class
exists anywhere in the source. -/
inductive PyErr where
  | keyError (k : Nat)
  | configurationError
  | embeddingUnavailable
  | ioError
  | gatewayError
  | databaseError
  deriving DecidableEq, Repr

/-- A persisted row of the `vectors` table: `text` and `embedding` columns. -/
structure Row where
  text : String
  embedding : List ℚ
  deriving DecidableEq, Repr

/-- One row returned by `TextProcessor.search`: with `RealDictCursor`, each
fetched row carries the `text` column and the `distance` SELECT alias. -/
structure SearchResult where
  text : String
  distance : ℚ
  deriving DecidableEq, Repr

/-- `SearchMode` from `text_processor.py` (the source spells "EUCLIDIAN"). -/
inductive SearchMode where
  | euclidianDistance
  | cosineDistance
  deriving DecidableEq, Repr

/-- Modelled from the spec: `task.utils.text.chunk_text` is imported by
`text_processor.py` but `task/utils/text.py` is not among the source files.
Window loop per §4.1 and the §8 scenarios: emit the slice
`text[start:start+chunk_size]`, advance `start` by `chunk_size - overlap`,
and stop once a window reaches the end of the text. This reproduces both
spec scenarios: "ABCDEFGH" with size 4, overlap 2 gives exactly
["ABCD","CDEF","EFGH"], and "AAAABBBBCCCC" with size 4, overlap 0 gives
["AAAA","BBBB","CCCC"]. Here `stepPred + 1 = chunk_size - overlap`. -/
def chunkWindowsAux (size stepPred : Nat) : Nat → List Char → List (List Char)
  | _, [] => []
  | 0, _ :: _ => []
  | fuel + 1, c :: cs =>
    if size < (c :: cs).length then
      (c :: cs).take size :: chunkWindowsAux size stepPred fuel (cs.drop stepPred)
    else
      [c :: cs]

/-- The window loop, run with enough fuel for every step (each loop
iteration consumes at least one character of the remaining text, so
`chars.length` iterations always suffice). -/
def chunkWindows (chars : List Char) (size stepPred : Nat) : List (List Char) :=
  chunkWindowsAux size stepPred chars.length chars

/-- Modelled from the spec (§4.1, §7): `chunk_size <= 0` or
`overlap >= chunk_size` raises `ConfigurationError` before any window is
emitted; otherwise the window loop runs. -/
def chunk_text (text : String) (chunk_size overlap : Int) : Except PyErr (List String) :=
  if chunk_size ≤ 0 ∨ overlap ≥ chunk_size then .error .configurationError
  else
    .ok ((chunkWindows text.toList chunk_size.toNat
            (chunk_size - overlap - 1).toNat).map List.asString)

namespace TextProcessor

/-- `distance_operator = "<->" if search_mode == SearchMode.EUCLIDIAN_DISTANCE
else "<=>"` from `search`. -/
def distance_operator (search_mode : SearchMode) : String :=
  if search_mode = SearchMode.euclidianDistance then "<->" else "<=>"

/-- The shape of the SQL text built in `search`: the operator spliced into
the SELECT distance expression, the operator spliced into the WHERE
comparison, and the ORDER BY key (the alias `distance` of the SELECT
expression). -/
structure SearchSql where
  selectOp : String
  whereOp : String
  orderKey : String
  deriving DecidableEq, Repr

/-- The f-string query of `search`: a single `distance_operator` value is
spliced into both the SELECT expression and the WHERE clause, `ORDER BY
distance` names the SELECT alias, and `LIMIT %s` receives `top_k`. -/
def build_search_query (search_mode : SearchMode) : SearchSql :=
  let op := distance_operator search_mode
  { selectOp := op, whereOp := op, orderKey := "distance" }

/-- `a ≼ b` iff the distance of `a` is at most that of `b`: the ORDER BY
ascending order on the `distance` alias. -/
def leDist (a b : SearchResult) : Prop := a.distance ≤ b.distance

instance : DecidableRel leDist :=
  fun a b => inferInstanceAs (Decidable (a.distance ≤ b.distance))

instance : IsTotal SearchResult leDist :=
  ⟨fun a b => le_total a.distance b.distance⟩

instance : IsTrans SearchResult leDist :=
  ⟨fun _ _ _ hab hbc => le_trans hab hbc⟩

/-- Relational semantics of the built statement over the stored table.
`dist` interprets a pgvector operator string on two vectors. SQL evaluation
order: WHERE filters the rows (computing the distance expression with the
spliced `whereOp`), SELECT projects `text` plus the `distance` alias (with
`selectOp`), ORDER BY sorts ascending on the alias, LIMIT truncates.
PostgreSQL rejects a negative LIMIT argument. -/
def run_search_query (dist : String → List ℚ → List ℚ → ℚ) (q : SearchSql)
    (table : List Row) (query_vector : List ℚ) (min_score_threshold : ℚ)
    (top_k : Int) : Except PyErr (List SearchResult) :=
  if top_k < 0 then .error .databaseError
  else
    let filtered := table.filter fun r =>
      decide (dist q.whereOp r.embedding query_vector < min_score_threshold)
    let projected := filtered.map fun r =>
      SearchResult.mk r.text (dist q.selectOp r.embedding query_vector)
    let ordered := projected.insertionSort leDist
    .ok (ordered.take top_k.toNat)

/-- `TextProcessor.search`: embed the single user request (a batch of one),
take index 0 of the returned dict (a missing key raises KeyError), build the
query from the mode, then execute it. `get_embeddings` is the external
Embedding Gateway; `table` is the current contents of `vectors`. No
parameter is validated before the gateway call. -/
def search (get_embeddings : List String → Int → Except PyErr (Nat → Option (List ℚ)))
    (dist : String → List ℚ → List ℚ → ℚ) (table : List Row)
    (search_mode : SearchMode) (user_request : String) (top_k : Int)
    (min_score_threshold : ℚ) (dimensions : Int) :
    Except PyErr (List SearchResult) :=
  match get_embeddings [user_request] dimensions with
  | .error e => .error e
  | .ok request_embedding_dict =>
    match request_embedding_dict 0 with
    | none => .error (.keyError 0)
    | some request_embedding_vector =>
      run_search_query dist (build_search_query search_mode) table
        request_embedding_vector min_score_threshold top_k

/-- The insert loop of `process_text_file`: `for index, chunk in
enumerate(chunks): embedding_vector = embeddings_dict[index]; ... INSERT`.
A missing dict key raises KeyError at that index and aborts the loop; on
success the rows to be committed are returned in order. -/
def insert_rows (embeddings_dict : Nat → Option (List ℚ)) :
    Nat → List String → Except PyErr (List Row)
  | _, [] => .ok []
  | index, chunk :: rest =>
    match embeddings_dict index with
    | none => .error (.keyError index)
    | some embedding_vector =>
      match insert_rows embeddings_dict (index + 1) rest with
      | .error e => .error e
      | .ok rows => .ok (Row.mk chunk embedding_vector :: rows)

/-- `TextProcessor.process_text_file`. Step order as in the source: an
optional truncation (its own connection, committed at once), reading the
file, chunking, one batched gateway call, then the insert loop inside a
single connection block that commits only after the whole loop, and rolls
back when the loop raises. Returns the call's outcome together with the
final contents of the `vectors` store. -/
def process_text_file
    (get_embeddings : List String → Int → Except PyErr (Nat → Option (List ℚ)))
    (read_file : String → Except PyErr String)
    (file_name : String) (chunk_size overlap : Int) (dimensions : Int)
    (truncate_table : Bool) (store : List Row) :
    Except PyErr Unit × List Row :=
  let store1 := if truncate_table then [] else store
  match read_file file_name with
  | .error e => (.error e, store1)
  | .ok content =>
    match chunk_text content chunk_size overlap with
    | .error e => (.error e, store1)
    | .ok chunks =>
      match get_embeddings chunks dimensions with
      | .error e => (.error e, store1)
      | .ok embeddings_dict =>
        match insert_rows embeddings_dict 0 chunks with
        | .error e => (.error e, store1)
        | .ok rows => (.ok (), store1 ++ rows)

/-- psycopg2 `sql.Identifier`: PostgreSQL identifier quoting — wrap the name
in double quotes and double every embedded double quote. -/
def pgQuoteIdent (name : List Char) : List Char :=
  '"' :: ((name.map fun c => if c = '"' then ['"', '"'] else [c]).flatten ++ ['"'])

/-- The statement executed by `_truncate_table`: the TRUNCATE template with
the quoted identifier spliced by `sql.SQL(...).format(sql.Identifier(...))`;
the raw table name never reaches the statement unescaped. -/
def truncate_statement (table_name : List Char) : List Char :=
  "TRUNCATE TABLE ".toList ++ pgQuoteIdent table_name ++ [';']

/-- Strips an expected literal prefix, returning the remainder. -/
def stripPrefixChars : List Char → List Char → Option (List Char)
  | [], s => some s
  | _ :: _, [] => none
  | p :: ps, c :: cs => if p = c then stripPrefixChars ps cs else none

/-- Reads a quoted-identifier body after its opening quote: a doubled quote
denotes a literal quote character, a single quote closes the identifier.
Returns the unescaped body and the remaining input. -/
def parseIdentBody : List Char → Option (List Char × List Char)
  | [] => none
  | c :: rest =>
    if c = '"' then
      match rest with
      | [] => some ([], [])
      | r :: rs =>
        if r = '"' then
          match parseIdentBody rs with
          | none => none
          | some p => some ('"' :: p.1, p.2)
        else some ([], r :: rs)
    else
      match parseIdentBody rest with
      | none => none
      | some p => some (c :: p.1, p.2)

/-- Expects an opening double quote and reads the quoted identifier. -/
def expectQuotedIdent (r1 : List Char) : Option (List Char × List Char) :=
  match r1 with
  | '"' :: r2 => parseIdentBody r2
  | _ => none

/-- Recognises exactly the statements of the form
`TRUNCATE TABLE "<one quoted identifier>";` and returns the unescaped
identifier; anything else (a second statement, an unquoted name, trailing
input) is rejected. -/
def parseTruncateStatement (stmt : List Char) : Option (List Char) :=
  (stripPrefixChars ("TRUNCATE TABLE ".toList) stmt).bind fun r1 =>
    (expectQuotedIdent r1).bind fun p => if p.2 = [';'] then some p.1 else none

end TextProcessor

/-! Concrete collaborators and store states used to exercise the model on
closed inputs. -/

/-- An embeddings map holding entries for indices 0 and 1 only. -/
def missingDict : Nat → Option (List ℚ) :=
  fun i => if i < 2 then some [(0 : ℚ)] else none

/-- A gateway returning `missingDict` for every batch. -/
def gwMissingTwo : List String → Int → Except PyErr (Nat → Option (List ℚ)) :=
  fun _ _ => .ok missingDict

/-- A document file whose content is "abc". -/
def readsABC : String → Except PyErr String := fun _ => .ok "abc"

/-- A document file that fails to open. -/
def readsFail : String → Except PyErr String := fun _ => .error .ioError

/-- A store already holding one row from an earlier ingestion. -/
def storeOld : List Row := [Row.mk "previously ingested chunk" [(1 : ℚ)]]

/-- A concrete interpretation of the pgvector operators for closed tests:
the distance of a stored embedding from the query is its first coordinate
(the store below encodes each row's intended distance there). -/
def firstCoordDist : String → List ℚ → List ℚ → ℚ := fun _ v _ => v.headD 0

/-- A query-embedding map holding the vector `[0]` at index 0 only. -/
def qdictZero : Nat → Option (List ℚ) :=
  fun i => if i = 0 then some [(0 : ℚ)] else none

/-- A gateway returning `qdictZero` for every batch. -/
def gwZero : List String → Int → Except PyErr (Nat → Option (List ℚ)) :=
  fun _ _ => .ok qdictZero

/-- A store with two rows at L1 distances 1 and 3 from the query `[0]`. -/
def tableMicrowave : List Row :=
  [Row.mk "Place food in the microwave" [(1 : ℚ)],
   Row.mk "Close the door before starting" [(3 : ℚ)]]

lemma chunkWindowsAux_getElem? (size stepPred : Nat) (hstep : stepPred + 1 ≤ size) :
    ∀ (fuel : Nat) (chars : List Char), chars.length ≤ fuel →
      ∀ i : Nat, (chunkWindowsAux size stepPred fuel chars)[i]? =
        if chars ≠ [] ∧
            (i = 0 ∨ (i - 1) * (stepPred + 1) + size < chars.length) then
          some ((chars.drop (i * (stepPred + 1))).take size)
        else none := by
  intro fuel
  induction fuel with
  | zero =>
    intro chars hlen i
    have hnil : chars = [] := List.eq_nil_of_length_eq_zero (Nat.le_zero.mp hlen)
    subst hnil
    simp [chunkWindowsAux]
  | succ fuel ih =>
    intro chars hlen i
    rcases chars with _ | ⟨c, cs⟩
    · simp [chunkWindowsAux]
    · simp only [List.length_cons] at hlen
      by_cases hbig : size < (c :: cs).length
      · have hunf : chunkWindowsAux size stepPred (fuel + 1) (c :: cs) =
            (c :: cs).take size :: chunkWindowsAux size stepPred fuel (cs.drop stepPred) := by
          rw [chunkWindowsAux]
          rw [if_pos hbig]
        rw [hunf]
        simp only [List.length_cons] at hbig
        rcases i with _ | k
        · rw [List.getElem?_cons_zero]
          rw [if_pos ⟨List.cons_ne_nil c cs, Or.inl rfl⟩]
          simp
        · rw [List.getElem?_cons_succ]
          rw [ih (cs.drop stepPred) (by simp only [List.length_drop]; omega) k]
          rcases k with _ | j
          · have hne : cs.drop stepPred ≠ [] := by
              rw [ne_eq, List.drop_eq_nil_iff]
              omega
            rw [if_pos ⟨hne, Or.inl rfl⟩]
            rw [if_pos ⟨List.cons_ne_nil c cs,
              Or.inr (by simpa using hbig)⟩]
            simp [List.drop_succ_cons]
          · have hlhs : ((cs.drop stepPred ≠ []) ∧
                (j + 1 = 0 ∨ (j + 1 - 1) * (stepPred + 1) + size < (cs.drop stepPred).length))
                ↔ (j * (stepPred + 1) + (stepPred + 1) + size < cs.length + 1) := by
              rw [ne_eq, List.drop_eq_nil_iff]
              simp only [Nat.succ_sub_one, List.length_drop, Nat.succ_ne_zero, false_or]
              omega
            have hrhs : ((c :: cs ≠ []) ∧
                (j + 1 + 1 = 0 ∨ (j + 1 + 1 - 1) * (stepPred + 1) + size < (c :: cs).length))
                ↔ (j * (stepPred + 1) + (stepPred + 1) + size < cs.length + 1) := by
              simp only [ne_eq, List.cons_ne_nil, not_false_iff, true_and, Nat.succ_sub_one,
                List.length_cons, Nat.succ_ne_zero, false_or, Nat.succ_mul]
            by_cases hc : j * (stepPred + 1) + (stepPred + 1) + size < cs.length + 1
            · rw [if_pos (hlhs.mpr hc), if_pos (hrhs.mpr hc)]
              rw [List.drop_drop]
              have harith : (j + 1 + 1) * (stepPred + 1) =
                  ((j + 1) * (stepPred + 1) + stepPred) + 1 := by
                rw [Nat.succ_mul]
                omega
              rw [harith, List.drop_succ_cons,
                Nat.add_comm stepPred ((j + 1) * (stepPred + 1))]
            · rw [if_neg (fun hx => hc (hlhs.mp hx)), if_neg (fun hx => hc (hrhs.mp hx))]
      · have hunf : chunkWindowsAux size stepPred (fuel + 1) (c :: cs) = [c :: cs] := by
          rw [chunkWindowsAux]
          rw [if_neg hbig]
        rw [hunf]
        simp only [List.length_cons, not_lt] at hbig
        rcases i with _ | k
        · rw [List.getElem?_cons_zero]
          rw [if_pos ⟨List.cons_ne_nil c cs, Or.inl rfl⟩]
          rw [Nat.zero_mul, List.drop_zero, List.take_of_length_le (by simpa using hbig)]
        · rw [List.getElem?_cons_succ, List.getElem?_nil]
          rw [if_neg]
          rintro ⟨-, h0 | hlt⟩
          · exact Nat.succ_ne_zero k h0
          · simp only [Nat.succ_sub_one, List.length_cons] at hlt
            have hge : size ≤ k * (stepPred + 1) + size := Nat.le_add_left _ _
            omega

lemma chunkWindowsAux_mem (size stepPred : Nat) (hsize : 0 < size) :
    ∀ (fuel : Nat) (chars : List Char) (w : List Char),
      w ∈ chunkWindowsAux size stepPred fuel chars → w ≠ [] ∧ w.length ≤ size := by
  intro fuel
  induction fuel with
  | zero =>
    intro chars w hw
    rcases chars with _ | ⟨c, cs⟩ <;> simp [chunkWindowsAux] at hw
  | succ fuel ih =>
    intro chars w hw
    rcases chars with _ | ⟨c, cs⟩
    · simp [chunkWindowsAux] at hw
    · rw [chunkWindowsAux] at hw
      by_cases hbig : size < (c :: cs).length
      · rw [if_pos hbig] at hw
        rcases List.mem_cons.mp hw with rfl | hmem
        · refine ⟨List.ne_nil_of_length_pos ?_, ?_⟩
          · rw [List.length_take]
            simp only [List.length_cons]
            omega
          · rw [List.length_take]
            omega
        · exact ih _ _ hmem
      · rw [if_neg hbig] at hw
        have hw2 : w = c :: cs := List.mem_singleton.mp hw
        subst hw2
        simp only [List.length_cons, not_lt] at hbig
        exact ⟨List.cons_ne_nil c cs, by simpa using hbig⟩

lemma stripPrefixChars_append (p : List Char) :
    ∀ s : List Char, TextProcessor.stripPrefixChars p (p ++ s) = some s := by
  induction p with
  | nil => intro s; rfl
  | cons c cs ih =>
    intro s
    simp only [List.cons_append, TextProcessor.stripPrefixChars, if_pos rfl]
    exact ih s

lemma expectQuotedIdent_cons (r2 : List Char) :
    TextProcessor.expectQuotedIdent ('"' :: r2) = TextProcessor.parseIdentBody r2 := rfl

lemma parseIdentBody_two_quotes (X : List Char) :
    TextProcessor.parseIdentBody ('"' :: '"' :: X) =
      match TextProcessor.parseIdentBody X with
      | none => none
      | some p => some ('"' :: p.1, p.2) := rfl

lemma parseIdentBody_escape (name : List Char) :
    ∀ rest : List Char, rest.head? ≠ some '"' →
      TextProcessor.parseIdentBody
        (((name.map fun c => if c = '"' then ['"', '"'] else [c]).flatten)
          ++ '"' :: rest) = some (name, rest) := by
  induction name with
  | nil =>
    intro rest h
    simp only [List.map_nil, List.flatten_nil, List.nil_append]
    rw [TextProcessor.parseIdentBody.eq_def]
    simp only [if_pos rfl]
    rcases rest with _ | ⟨r, rs⟩
    · rfl
    · have hr : r ≠ '"' := by
        intro hcon
        exact h (by simp [hcon])
      simp [hr]
  | cons c t ih =>
    intro rest h
    by_cases hc : c = '"'
    · subst hc
      have hshape :
          ((('"' :: t).map fun c => if c = '"' then ['"', '"'] else [c]).flatten
              ++ '"' :: rest) =
            '"' :: '"' :: ((t.map fun c => if c = '"' then ['"', '"'] else [c]).flatten
              ++ '"' :: rest) := by
        simp
      rw [hshape, parseIdentBody_two_quotes, ih rest h]
    · have hshape :
          (((c :: t).map fun c => if c = '"' then ['"', '"'] else [c]).flatten
              ++ '"' :: rest) =
            c :: ((t.map fun c => if c = '"' then ['"', '"'] else [c]).flatten
              ++ '"' :: rest) := by
        simp [hc]
      rw [hshape, TextProcessor.parseIdentBody.eq_def]
      simp only [if_neg hc]
      rw [ih rest h]

/-- Claim C8: for every caller-supplied table name, `_truncate_table` builds
the executed statement through the identifier-safe
`sql.SQL("TRUNCATE TABLE ...").format(sql.Identifier(table_name))`
mechanism: the raw name is never interpolated directly, so the executed
statement always parses back as exactly one TRUNCATE of the single named
collection — even a name containing quotes, semicolons or SQL text denotes
only an identifier, and the parsed identifier is the original name. -/
theorem claim_C8_truncate_identifier_safe (table_name : List Char) :
    TextProcessor.parseTruncateStatement
      (TextProcessor.truncate_statement table_name) = some table_name := by
  unfold TextProcessor.parseTruncateStatement TextProcessor.truncate_statement
    TextProcessor.pgQuoteIdent
  rw [List.append_assoc, List.cons_append, stripPrefixChars_append]
  rw [Option.some_bind, expectQuotedIdent_cons]
  rw [List.append_assoc, List.singleton_append]
  rw [parseIdentBody_escape table_name [';'] (by simp)]
  simp

/-- Claim C6: for every input text, calling the chunker with
`overlap >= chunk_size` or with `chunk_size <= 0` raises
`ConfigurationError` before the window loop can run, so it never loops and
never returns a chunk sequence. (`chunk_text` is modelled from the spec:
`task/utils/text.py` is not among the source files.) -/
theorem claim_C6_chunk_text_invalid_params (text : String) (chunk_size overlap : Int)
    (h : overlap ≥ chunk_size ∨ chunk_size ≤ 0) :
    chunk_text text chunk_size overlap = .error .configurationError := by
  unfold chunk_text
  rw [if_pos (Or.symm h)]

theorem claim_C6_chunk_text_invalid_params_witness :
    ((2 : Int) ≥ 2 ∨ (2 : Int) ≤ 0) ∧
      chunk_text "some document text" 2 2 = .error .configurationError :=
  ⟨Or.inl (le_refl 2),
    claim_C6_chunk_text_invalid_params "some document text" 2 2 (Or.inl (le_refl 2))⟩

/-- Claim C10: `search` computes a single distance operator from the mode —
`"<->"` (euclidean) exactly when the mode is `EUCLIDIAN_DISTANCE` and
`"<=>"` (cosine) for every other value — and splices that one operator into
both the SELECT distance expression and the WHERE threshold comparison,
while ORDER BY names the SELECT alias `distance`; hence the reported
distance, the filter and the ranking agree on one metric per call. -/
theorem claim_C10_single_distance_operator (search_mode : SearchMode) :
    ∃ op : String,
      (TextProcessor.build_search_query search_mode).selectOp = op ∧
      (TextProcessor.build_search_query search_mode).whereOp = op ∧
      (TextProcessor.build_search_query search_mode).orderKey = "distance" ∧
      (op = "<->" ↔ search_mode = SearchMode.euclidianDistance) ∧
      (op = "<=>" ↔ search_mode ≠ SearchMode.euclidianDistance) := by
  refine ⟨TextProcessor.distance_operator search_mode, rfl, rfl, rfl, ?_, ?_⟩ <;>
    cases search_mode <;> simp [TextProcessor.distance_operator]

lemma insert_rows_ok_texts (embeddings_dict : Nat → Option (List ℚ)) :
    ∀ (chunks : List String) (base : Nat) (rows : List Row),
      TextProcessor.insert_rows embeddings_dict base chunks = .ok rows →
      rows.map Row.text = chunks := by
  intro chunks
  induction chunks with
  | nil =>
    intro base rows h
    simp only [TextProcessor.insert_rows] at h
    cases h
    rfl
  | cons c rest ih =>
    intro base rows h
    simp only [TextProcessor.insert_rows] at h
    rcases hd : embeddings_dict base with _ | v <;> rw [hd] at h
    · cases h
    · rcases hrec : TextProcessor.insert_rows embeddings_dict (base + 1) rest
        with e | rows' <;> rw [hrec] at h
      · cases h
      · cases h
        simpa using ih (base + 1) rows' hrec

lemma insert_rows_missing (dict : Nat → Option (List ℚ)) :
    ∀ (chunks : List String) (base : Nat),
      (∃ i, i < chunks.length ∧ dict (base + i) = none) →
      ∃ j, dict j = none ∧
        TextProcessor.insert_rows dict base chunks = .error (.keyError j) := by
  intro chunks
  induction chunks with
  | nil =>
    rintro base ⟨i, hi, _⟩
    exact absurd hi (by simp)
  | cons c rest ih =>
    rintro base ⟨i, hi, hnone⟩
    rcases hd : dict base with _ | v
    · exact ⟨base, hd, by simp [TextProcessor.insert_rows, hd]⟩
    · have hi0 : i ≠ 0 := by
        rintro rfl
        rw [Nat.add_zero] at hnone
        rw [hd] at hnone
        cases hnone
      obtain ⟨k, rfl⟩ : ∃ k, i = k + 1 := ⟨i - 1, by omega⟩
      have hrest : ∃ k2, k2 < rest.length ∧ dict (base + 1 + k2) = none := by
        refine ⟨k, by simp at hi; omega, ?_⟩
        rw [show base + 1 + k = base + (k + 1) by omega]
        exact hnone
      obtain ⟨j, hj, hrec⟩ := ih (base + 1) hrest
      exact ⟨j, hj, by simp [TextProcessor.insert_rows, hd, hrec]⟩

lemma process_text_file_cases
    (gw : List String → Int → Except PyErr (Nat → Option (List ℚ)))
    (rf : String → Except PyErr String) (file_name : String)
    (chunk_size overlap dimensions : Int) (truncate_table : Bool) (store : List Row) :
    (TextProcessor.process_text_file gw rf file_name chunk_size overlap dimensions
        truncate_table store).2 = (if truncate_table then [] else store) ∨
      ∃ content chunks embeddings_dict rows,
        rf file_name = .ok content ∧
        chunk_text content chunk_size overlap = .ok chunks ∧
        gw chunks dimensions = .ok embeddings_dict ∧
        TextProcessor.insert_rows embeddings_dict 0 chunks = .ok rows ∧
        rows.map Row.text = chunks ∧
        TextProcessor.process_text_file gw rf file_name chunk_size overlap dimensions
            truncate_table store =
          (.ok (), (if truncate_table then [] else store) ++ rows) := by
  rcases h1 : rf file_name with e | content
  · left
    simp [TextProcessor.process_text_file, h1]
  · rcases h2 : chunk_text content chunk_size overlap with e | chunks
    · left
      simp [TextProcessor.process_text_file, h1, h2]
    · rcases h3 : gw chunks dimensions with e | embeddings_dict
      · left
        simp [TextProcessor.process_text_file, h1, h2, h3]
      · rcases h4 : TextProcessor.insert_rows embeddings_dict 0 chunks with e | rows
        · left
          simp [TextProcessor.process_text_file, h1, h2, h3, h4]
        · right
          refine ⟨content, chunks, embeddings_dict, rows, ?_, ?_, ?_, ?_,
            insert_rows_ok_texts embeddings_dict chunks 0 rows h4,
            by simp [TextProcessor.process_text_file, h1, h2, h3, h4]⟩ <;>
          first
            | exact h1
            | exact h2
            | exact h3
            | exact h4
            | rfl

/-- Claim C4 (confirmed): every (chunk-text, vector) row of a document is
inserted inside one connection block that commits only after the whole
loop, and psycopg2 rolls the transaction back when the loop raises; so
after `process_text_file` either the store is exactly as it was before the
insert step (no row of the document), or the call succeeded and the store
gained one row per chunk, carrying the chunk texts in order — a partially
written document is never an observable store state. -/
theorem claim_C4_document_atomicity
    (gw : List String → Int → Except PyErr (Nat → Option (List ℚ)))
    (rf : String → Except PyErr String) (file_name : String)
    (chunk_size overlap dimensions : Int) (truncate_table : Bool) (store : List Row) :
    (TextProcessor.process_text_file gw rf file_name chunk_size overlap dimensions
        truncate_table store).2 = (if truncate_table then [] else store) ∨
      ∃ content chunks embeddings_dict rows,
        rf file_name = .ok content ∧
        chunk_text content chunk_size overlap = .ok chunks ∧
        gw chunks dimensions = .ok embeddings_dict ∧
        TextProcessor.insert_rows embeddings_dict 0 chunks = .ok rows ∧
        rows.map Row.text = chunks ∧
        TextProcessor.process_text_file gw rf file_name chunk_size overlap dimensions
            truncate_table store =
          (.ok (), (if truncate_table then [] else store) ++ rows) :=
  process_text_file_cases gw rf file_name chunk_size overlap dimensions truncate_table store

/-- Claim C3 (counterexample): with the content "abc" chunked into three
chunks and a gateway map missing index 2, `process_text_file` raises the
Python `KeyError` for the missing dict key — not the `EmbeddingUnavailable`
error class the claim names (no such class exists in the source) — while
indeed writing no rows. -/
theorem claim_C3_counterexample :
    TextProcessor.process_text_file gwMissingTwo readsABC "manual.txt" 1 0 4 false [] =
      (.error (.keyError 2), []) ∧
    PyErr.keyError 2 ≠ PyErr.embeddingUnavailable :=
  ⟨rfl, by decide⟩

/-- Claim C3 (amended): if the embedding map returned for a document's
chunks is missing any index below the chunk count, `process_text_file`
raises a `KeyError` for a missing index (it fails fast rather than
silently skipping the chunk), and — the insert transaction being rolled
back — no rows for that document are written to the store. -/
theorem claim_C3_missing_index_keyerror
    (gw : List String → Int → Except PyErr (Nat → Option (List ℚ)))
    (rf : String → Except PyErr String) (file_name : String)
    (chunk_size overlap dimensions : Int) (truncate_table : Bool) (store : List Row)
    (content : String) (chunks : List String) (embeddings_dict : Nat → Option (List ℚ))
    (h1 : rf file_name = .ok content)
    (h2 : chunk_text content chunk_size overlap = .ok chunks)
    (h3 : gw chunks dimensions = .ok embeddings_dict)
    (h4 : ∃ i, i < chunks.length ∧ embeddings_dict i = none) :
    ∃ j, embeddings_dict j = none ∧
      TextProcessor.process_text_file gw rf file_name chunk_size overlap dimensions
          truncate_table store =
        (.error (.keyError j), if truncate_table then [] else store) := by
  obtain ⟨j, hj, hrows⟩ := insert_rows_missing embeddings_dict chunks 0 (by simpa using h4)
  exact ⟨j, hj, by simp [TextProcessor.process_text_file, h1, h2, h3, hrows]⟩

theorem claim_C3_missing_index_keyerror_witness :
    (readsABC "manual.txt" = .ok "abc") ∧
    (chunk_text "abc" 1 0 = .ok ["a", "b", "c"]) ∧
    (gwMissingTwo ["a", "b", "c"] 4 = .ok missingDict) ∧
    (∃ i, i < (["a", "b", "c"] : List String).length ∧ missingDict i = none) ∧
    ∃ j, missingDict j = none ∧
      TextProcessor.process_text_file gwMissingTwo readsABC "manual.txt" 1 0 4 false [] =
        (.error (.keyError j), if false then [] else []) :=
  ⟨rfl, rfl, rfl, ⟨2, by simp, rfl⟩,
    claim_C3_missing_index_keyerror gwMissingTwo readsABC "manual.txt" 1 0 4 false []
      "abc" ["a", "b", "c"] missingDict rfl rfl rfl ⟨2, by simp, rfl⟩⟩

/-- Claim C9 (confirmed): with `truncate_table=True` the TRUNCATE runs on
its own connection and is committed before the file is read, before the
gateway is called and before any insert; therefore whenever the rest of
the call fails — file read, chunking, embeddings, or the insert loop —
the store is left empty: the pre-existing rows are not restored, because
the reset is not part of the insert transaction. -/
theorem claim_C9_truncation_not_rolled_back
    (gw : List String → Int → Except PyErr (Nat → Option (List ℚ)))
    (rf : String → Except PyErr String) (file_name : String)
    (chunk_size overlap dimensions : Int) (store : List Row) (e : PyErr)
    (h : (TextProcessor.process_text_file gw rf file_name chunk_size overlap dimensions
        true store).1 = .error e) :
    (TextProcessor.process_text_file gw rf file_name chunk_size overlap dimensions
        true store).2 = [] := by
  rcases process_text_file_cases gw rf file_name chunk_size overlap dimensions true store
    with hleft | ⟨_, _, _, _, _, _, _, _, _, hok⟩
  · simpa using hleft
  · rw [hok] at h
    cases h

theorem claim_C9_truncation_not_rolled_back_witness :
    ((TextProcessor.process_text_file gwMissingTwo readsFail "manual.txt" 400 40 1536
        true storeOld).1 = .error PyErr.ioError) ∧
    (TextProcessor.process_text_file gwMissingTwo readsFail "manual.txt" 400 40 1536
        true storeOld).2 = [] :=
  ⟨rfl, claim_C9_truncation_not_rolled_back gwMissingTwo readsFail "manual.txt"
    400 40 1536 storeOld PyErr.ioError rfl⟩

/-- Claim C1 (confirmed): for every stored table, query vector, metric
interpretation, positive `top_k` and threshold, `search` returns only rows
whose distance to the query vector under the selected operator is strictly
below the threshold, sorted by non-decreasing distance, with at most
`top_k` rows; the WHERE filter applies before the LIMIT truncation, so the
result length is `min top_k (number of rows passing the threshold)` —
fewer than `top_k` results is a valid outcome, not an error. -/
theorem claim_C1_search_threshold_order_limit
    (gw : List String → Int → Except PyErr (Nat → Option (List ℚ)))
    (dist : String → List ℚ → List ℚ → ℚ) (table : List Row)
    (search_mode : SearchMode) (user_request : String) (top_k : Int)
    (min_score_threshold : ℚ) (dimensions : Int)
    (query_dict : Nat → Option (List ℚ)) (query_vector : List ℚ)
    (hgw : gw [user_request] dimensions = .ok query_dict)
    (hq : query_dict 0 = some query_vector)
    (htop : 0 < top_k) :
    ∃ rs, TextProcessor.search gw dist table search_mode user_request top_k
        min_score_threshold dimensions = .ok rs ∧
      (∀ r ∈ rs, r.distance < min_score_threshold) ∧
      List.Sorted TextProcessor.leDist rs ∧
      rs.length ≤ top_k.toNat ∧
      rs.length = min top_k.toNat
        ((table.filter fun r =>
          decide (dist (TextProcessor.distance_operator search_mode) r.embedding
            query_vector < min_score_threshold)).length) := by
  have hbody : TextProcessor.search gw dist table search_mode user_request top_k
      min_score_threshold dimensions =
      TextProcessor.run_search_query dist
        (TextProcessor.build_search_query search_mode) table query_vector
        min_score_threshold top_k := by
    simp only [TextProcessor.search, hgw, hq]
  rw [hbody]
  unfold TextProcessor.run_search_query
  rw [if_neg (by omega : ¬ top_k < 0)]
  refine ⟨_, rfl, ?_, ?_, ?_, ?_⟩
  · intro r hr
    have hr1 := List.mem_of_mem_take hr
    rw [List.mem_insertionSort] at hr1
    obtain ⟨row, hrow, rfl⟩ := List.mem_map.mp hr1
    have := (List.mem_filter.mp hrow).2
    exact of_decide_eq_true this
  · exact List.Pairwise.sublist (List.take_sublist _ _)
      (List.sorted_insertionSort TextProcessor.leDist _)
  · simp only [List.length_take, List.length_insertionSort, List.length_map]
    omega
  · simp only [List.length_take, List.length_insertionSort, List.length_map]
    rfl

theorem claim_C1_search_threshold_order_limit_witness :
    (gwZero ["how long should I defrost"] 1536 = .ok qdictZero) ∧
    (qdictZero 0 = some [(0 : ℚ)]) ∧
    ((0 : Int) < 1) ∧
    ∃ rs, TextProcessor.search gwZero firstCoordDist tableMicrowave
        SearchMode.euclidianDistance "how long should I defrost" 1 2 1536 = .ok rs ∧
      (∀ r ∈ rs, r.distance < 2) ∧
      List.Sorted TextProcessor.leDist rs ∧
      rs.length ≤ (1 : Int).toNat ∧
      rs.length = min (1 : Int).toNat
        ((tableMicrowave.filter fun r =>
          decide (firstCoordDist (TextProcessor.distance_operator SearchMode.euclidianDistance)
            r.embedding [(0 : ℚ)] < 2)).length) :=
  ⟨rfl, rfl, by decide,
    claim_C1_search_threshold_order_limit gwZero firstCoordDist tableMicrowave
      SearchMode.euclidianDistance "how long should I defrost" 1 2 1536
      qdictZero [(0 : ℚ)] rfl rfl (by decide)⟩

/-- Claim C2 (code bug): the claim and the spec say `search` returns only
the text field of each result; but the code's SELECT also aliases the
distance expression and `fetchall()` with `RealDictCursor` returns both
columns, so the returned sequence exposes the distance values. Evaluated
here on a concrete store: the result carries the distance 1 next to the
text. (`app.py` then feeds these rows to `"\n\n".join(...)`, which expects
plain strings.) -/
theorem claim_C2_distances_exposed :
    ∃ rs, TextProcessor.search gwZero firstCoordDist tableMicrowave
        SearchMode.euclidianDistance "how do I heat food" 5 2 1536 = .ok rs ∧
      rs.map SearchResult.text = ["Place food in the microwave"] ∧
      rs.map SearchResult.distance = [1] :=
  ⟨[SearchResult.mk "Place food in the microwave" 1], rfl, rfl, rfl⟩

/-- Claim C7 (counterexample): non-positive `top_k` (here 0) and
non-positive `dimensions` (here -5) do not make `search` raise
`ConfigurationError`: no parameter validation exists, the gateway is still
contacted, and the call returns an ordinary empty result. -/
theorem claim_C7_counterexample :
    TextProcessor.search gwZero firstCoordDist tableMicrowave SearchMode.euclidianDistance
        "how do I heat food" 0 (1 / 100) (-5) = .ok [] ∧
    (Except.ok ([] : List SearchResult) ≠
      (Except.error PyErr.configurationError : Except PyErr (List SearchResult))) :=
  ⟨rfl, by simp⟩

/-- Claim C7 (amended): `search` performs no validation of `top_k` or
`dimensions`: the Embedding Gateway is always contacted first, with
whatever `dimensions` value was passed; for non-positive `top_k` the call
then either propagates the gateway's outcome, and `top_k = 0` yields an
ordinary empty result via `LIMIT 0` while a negative `top_k` surfaces as a
store-level error from the negative LIMIT — never a `ConfigurationError`. -/
theorem claim_C7_no_validation
    (gw : List String → Int → Except PyErr (Nat → Option (List ℚ)))
    (dist : String → List ℚ → List ℚ → ℚ) (table : List Row)
    (search_mode : SearchMode) (user_request : String) (top_k : Int)
    (min_score_threshold : ℚ) (dimensions : Int)
    (h : top_k ≤ 0) :
    TextProcessor.search gw dist table search_mode user_request top_k
        min_score_threshold dimensions =
      match gw [user_request] dimensions with
      | .error e => .error e
      | .ok d =>
        match d 0 with
        | none => .error (.keyError 0)
        | some _ => if top_k < 0 then .error .databaseError else .ok [] := by
  rcases hgw : gw [user_request] dimensions with e | d
  · simp [TextProcessor.search, hgw]
  · rcases hd : d 0 with _ | v
    · simp [TextProcessor.search, hgw, hd]
    · by_cases hneg : top_k < 0
      · simp [TextProcessor.search, TextProcessor.run_search_query, hgw, hd, hneg]
      · have h0 : top_k.toNat = 0 := Int.toNat_of_nonpos h
        simp [TextProcessor.search, TextProcessor.run_search_query, hgw, hd, hneg, h0]

theorem claim_C7_no_validation_witness :
    ((0 : Int) ≤ 0) ∧
    TextProcessor.search gwZero firstCoordDist tableMicrowave SearchMode.euclidianDistance
        "how do I heat food" 0 (1 / 100) 1536 =
      match gwZero ["how do I heat food"] 1536 with
      | .error e => .error e
      | .ok d =>
        match d 0 with
        | none => .error (.keyError 0)
        | some _ => if (0 : Int) < 0 then .error .databaseError else .ok [] :=
  ⟨le_refl 0,
    claim_C7_no_validation gwZero firstCoordDist tableMicrowave SearchMode.euclidianDistance
      "how do I heat food" 0 (1 / 100) 1536 (le_refl 0)⟩

/-- Claim C5 (confirmed over the spec-modelled chunker): for every text and
every valid pair `(chunk_size > 0, 0 ≤ overlap < chunk_size)`, the chunker
succeeds and emits windows over the character stream whose start positions
advance by exactly `chunk_size - overlap`: chunk `i` is the slice starting
at `i * (chunk_size - overlap)` of length at most `chunk_size` (the final
window may be shorter; it is never padded), every emitted chunk is
non-empty, empty input yields the empty sequence rather than an error, and
the spec's own scenario holds: size 4, overlap 2 on "ABCDEFGH" gives
exactly ["ABCD","CDEF","EFGH"]. -/
theorem claim_C5_chunker_windows (text : String) (chunk_size overlap : Int)
    (h1 : 0 < chunk_size) (h2 : 0 ≤ overlap) (h3 : overlap < chunk_size) :
    ∃ cks, chunk_text text chunk_size overlap = .ok cks ∧
      (∀ i : Nat, cks[i]? =
        if text.toList ≠ [] ∧
            (i = 0 ∨ (i - 1) * (chunk_size - overlap).toNat + chunk_size.toNat
              < text.toList.length) then
          some (((text.toList.drop (i * (chunk_size - overlap).toNat)).take
            chunk_size.toNat).asString)
        else none) ∧
      (∀ ck ∈ cks, ck ≠ "" ∧ ck.length ≤ chunk_size.toNat) ∧
      (text = "" → cks = []) ∧
      chunk_text "ABCDEFGH" 4 2 = .ok ["ABCD", "CDEF", "EFGH"] := by
  have hguard : ¬ (chunk_size ≤ 0 ∨ overlap ≥ chunk_size) := by omega
  have hok : chunk_text text chunk_size overlap =
      .ok ((chunkWindows text.toList chunk_size.toNat
        (chunk_size - overlap - 1).toNat).map List.asString) := by
    unfold chunk_text
    rw [if_neg hguard]
  refine ⟨_, hok, ?_, ?_, ?_, rfl⟩
  · intro i
    rw [List.getElem?_map]
    rw [show (chunk_size - overlap).toNat = (chunk_size - overlap - 1).toNat + 1 by omega]
    unfold chunkWindows
    rw [chunkWindowsAux_getElem? chunk_size.toNat (chunk_size - overlap - 1).toNat
      (by omega) text.toList.length text.toList (le_refl _) i]
    by_cases hcond : text.toList ≠ [] ∧
        (i = 0 ∨ (i - 1) * ((chunk_size - overlap - 1).toNat + 1) + chunk_size.toNat
          < text.toList.length)
    · rw [if_pos hcond, if_pos hcond]
      rfl
    · rw [if_neg hcond, if_neg hcond]
      rfl
  · intro ck hck
    obtain ⟨w, hw, rfl⟩ := List.mem_map.mp hck
    obtain ⟨hne, hwlen⟩ := chunkWindowsAux_mem chunk_size.toNat
      (chunk_size - overlap - 1).toNat (by omega) text.toList.length text.toList w hw
    have hlen_eq : (List.asString w).length = w.length := rfl
    constructor
    · intro hcon
      have h0 : (List.asString w).length = 0 := by rw [hcon]; rfl
      have hpos : 0 < w.length := List.length_pos.mpr hne
      omega
    · rw [hlen_eq]
      exact hwlen
  · intro h0
    subst h0
    rfl

theorem claim_C5_chunker_windows_witness :
    ((0 : Int) < 4) ∧ ((0 : Int) ≤ 2) ∧ ((2 : Int) < 4) ∧
    ∃ cks, chunk_text "ABCDEFGH" 4 2 = .ok cks ∧
      (∀ i : Nat, cks[i]? =
        if "ABCDEFGH".toList ≠ [] ∧
            (i = 0 ∨ (i - 1) * ((4 : Int) - 2).toNat + (4 : Int).toNat
              < "ABCDEFGH".toList.length) then
          some ((("ABCDEFGH".toList.drop (i * ((4 : Int) - 2).toNat)).take
            (4 : Int).toNat).asString)
        else none) ∧
      (∀ ck ∈ cks, ck ≠ "" ∧ ck.length ≤ (4 : Int).toNat) ∧
      ("ABCDEFGH" = "" → cks = []) ∧
      chunk_text "ABCDEFGH" 4 2 = .ok ["ABCD", "CDEF", "EFGH"] :=
  ⟨by decide, by decide, by decide,
    claim_C5_chunker_windows "ABCDEFGH" 4 2 (by decide) (by decide) (by decide)⟩

example : chunk_text "ABCDEFGH" 4 2 = .ok ["ABCD", "CDEF", "EFGH"] := rfl

example : chunk_text "AAAABBBBCCCC" 4 0 = .ok ["AAAA", "BBBB", "CCCC"] := rfl

example : chunk_text "" 4 2 = .ok [] := rfl

example : chunk_text "ABCDE" 4 2 = .ok ["ABCD", "CDE"] := rfl

example :
    TextProcessor.parseTruncateStatement
      (TextProcessor.truncate_statement "vectors".toList) = some "vectors".toList := rfl
